import Mathlib

/-
Verification of the 6-DOF serial-manipulator kinematics program
(Danko_Danila_HA2.py): DH per-joint transforms, chained forward
kinematics, the geometric Jacobian, decomposition of a homogeneous
transform into position plus three angles, and the differential-IK
vector field.  Real matrices model numpy arrays; numpy.arctan2 is
modelled by an explicit four-quadrant atan2 over the reals.  Two
conventions of the real-number model are load-bearing and are flagged
where they matter: division by zero yields 0, and the reals have no
signed zero, so atan2 0 0 = 0 where IEEE arithmetic distinguishes
atan2(+0.0, -0.0) = pi from atan2(+0.0, +0.0) = 0.  Statements about
behaviour at exact trigonometric zeros are therefore confined to code
paths whose branch decisions are robust (tolerance eps = 1e-9 against
rounding noise of order 1e-16), and shape errors raised by numpy
broadcasting are modelled explicitly as Option.none.
-/

noncomputable section

open Matrix

abbrev M4 : Type := Matrix (Fin 4) (Fin 4) ℝ
abbrev M3 : Type := Matrix (Fin 3) (Fin 3) ℝ

/-- link_lengths = np.array([1,1,1,1,1,1]) -/
def link_lengths : Fin 6 → ℝ := ![1, 1, 1, 1, 1, 1]

/-- input = np.array([0.1,...,0.1]) : the configuration defining the target pose -/
def inputConf : Fin 6 → ℝ := ![0.1, 0.1, 0.1, 0.1, 0.1, 0.1]

/-- input_initial = np.array([0,...,0]) -/
def input_initial : Fin 6 → ℝ := ![0, 0, 0, 0, 0, 0]

def l1 : ℝ := link_lengths 0
def l2 : ℝ := link_lengths 1
def l3 : ℝ := link_lengths 2
def l4 : ℝ := link_lengths 3
def l5 : ℝ := link_lengths 4
def l6 : ℝ := link_lengths 5

/-- homogeneous rotation about z (get_rot_symb, key "z") -/
def rotZ (a : ℝ) : M4 :=
  !![Real.cos a, -Real.sin a, 0, 0;
     Real.sin a,  Real.cos a, 0, 0;
     0,           0,          1, 0;
     0,           0,          0, 1]

/-- homogeneous rotation about y (get_rot_symb, key "y") -/
def rotY (a : ℝ) : M4 :=
  !![ Real.cos a, 0, Real.sin a, 0;
      0,          1, 0,          0;
     -Real.sin a, 0, Real.cos a, 0;
      0,          0, 0,          1]

/-- homogeneous rotation about x (get_rot_symb, key "x") -/
def rotX (a : ℝ) : M4 :=
  !![1, 0,          0,           0;
     0, Real.cos a, -Real.sin a, 0;
     0, Real.sin a,  Real.cos a, 0;
     0, 0,          0,           1]

/-- homogeneous translation along z (get_trans_symb, key "z") -/
def transZ (d : ℝ) : M4 :=
  !![1, 0, 0, 0;
     0, 1, 0, 0;
     0, 0, 1, d;
     0, 0, 0, 1]

/-- homogeneous translation along y (get_trans_symb, key "y") -/
def transY (d : ℝ) : M4 :=
  !![1, 0, 0, 0;
     0, 1, 0, d;
     0, 0, 1, 0;
     0, 0, 0, 1]

/-- homogeneous translation along x (get_trans_symb, key "x") -/
def transX (d : ℝ) : M4 :=
  !![1, 0, 0, d;
     0, 1, 0, 0;
     0, 0, 1, 0;
     0, 0, 0, 1]

/-- get_dh: the six per-joint DH transforms T12 .. T6e, each a function of its
own joint angle (the numeric ts_num table).  compose_T_symb multiplies the
listed factors left to right. -/
def dh : Fin 6 → ℝ → M4
  | ⟨0, _⟩, q => rotZ q * transZ l1 * transX 0 * rotX (Real.pi / 2)
  | ⟨1, _⟩, q => rotZ q * transZ 0 * transX l2 * rotX 0
  | ⟨2, _⟩, q => rotZ q * transZ 0 * transX l3 * rotX (-(Real.pi / 2))
  | ⟨3, _⟩, q => rotZ q * transZ l4 * transX 0 * rotX (-(Real.pi / 2))
  | ⟨4, _⟩, q => rotZ (q - Real.pi / 2) * transZ 0 * transX 0 * rotX (-(Real.pi / 2))
  | ⟨5, _⟩, q => rotZ q * transZ (l5 + l6) * transX 0 * rotX 0

/-- the in-place loop ts[i+1] = ts[i].dot(ts[i+1]): accumulate products,
carrying the product computed so far -/
def chainAux (acc : M4) : List M4 → List M4
  | [] => []
  | t :: rest => (acc * t) :: chainAux (acc * t) rest

/-- result of the chaining loop of get_fk_solution: element i is the product
of the first i+1 per-joint transforms -/
def chainmul : List M4 → List M4
  | [] => []
  | t :: rest => t :: chainAux t rest

/-- get_fk_solution(qs, flag="full"): the list ts after the chaining loop -/
def get_fk_solution_full (qs : Fin 6 → ℝ) : List M4 :=
  chainmul [dh 0 (qs 0), dh 1 (qs 1), dh 2 (qs 2), dh 3 (qs 3), dh 4 (qs 4), dh 5 (qs 5)]

/-- get_fk_solution(qs, flag="ee"): ts[-1] -/
def get_fk_solution_ee (qs : Fin 6 → ℝ) : M4 :=
  (get_fk_solution_full qs).getLastD 0

/-- eps = 0.000000001 -/
def eps : ℝ := 1 / 1000000000

/-- eq(a,b): np.abs(a-b) < eps -/
abbrev eqR (a b : ℝ) : Prop := |a - b| < eps

/-- embed a Fin 3 row index into the Fin 4 index type of a homogeneous matrix -/
def toF4 (r : Fin 3) : Fin 4 := ⟨r.1, by have := r.2; omega⟩

/-- np.cross of two 3-vectors -/
def cross3 (a b : Fin 3 → ℝ) : Fin 3 → ℝ :=
  ![a 1 * b 2 - a 2 * b 1, a 2 * b 0 - a 0 * b 2, a 0 * b 1 - a 1 * b 0]

/-- row index of the linear-velocity half of the Jacobian -/
def lo (r : Fin 3) : Fin 6 := ⟨r.1, by have := r.2; omega⟩

/-- row index of the angular-velocity half of the Jacobian -/
def hi (r : Fin 3) : Fin 6 := ⟨r.1 + 3, by have := r.2; omega⟩

/-- jacobian(frames): prepend the identity base frame, take z_i = fks[i][:3,2],
o_diff = ee[:3,3] - fks[i][:3,3]; rows 0..2 of column i are np.cross(z, o_diff),
rows 3..5 are z -/
def jacobian (frames : List M4) : Matrix (Fin 6) (Fin 6) ℝ :=
  fun r i =>
    let fks : List M4 := (1 : M4) :: frames
    let ee : M4 := fks.getLastD 0
    let F : M4 := fks.getD (i : ℕ) 0
    let z : Fin 3 → ℝ := fun s => F (toF4 s) 2
    let o_diff : Fin 3 → ℝ := fun s => ee (toF4 s) 3 - F (toF4 s) 3
    if h : (r : ℕ) < 3 then cross3 z o_diff ⟨r.1, h⟩
    else z ⟨r.1 - 3, by have := r.2; omega⟩

/-- four-quadrant arctangent: model of np.arctan2(y, x) -/
def atan2 (y x : ℝ) : ℝ :=
  if 0 < x then Real.arctan (y / x)
  else if x < 0 then
    (if 0 ≤ y then Real.arctan (y / x) + Real.pi else Real.arctan (y / x) - Real.pi)
  else if 0 < y then Real.pi / 2
  else if y < 0 then -(Real.pi / 2)
  else 0

/-- the inner function go(m2) of decompose_transformation -/
def go_branch (W : M4) (m2 : ℝ) : List (List ℝ) :=
  if eqR |W 0 2| 0 then [[]]
  else
    let q3 := atan2 (-(W 0 1) * m2) (W 0 0 * m2)
    let c3 := Real.cos q3
    if ¬ eqR c3 0 then
      let q2 := atan2 (W 0 2) (W 0 0 / c3)
      let c2 := Real.cos q2
      let q1 := atan2 (-(W 1 2) / c2) (W 2 2 / c2)
      [[q1, q2, q3]]
    else
      let s3 := Real.sin q3
      let q2 := atan2 (W 0 2) (W 0 1 / -s3)
      let c2 := Real.cos q2
      let q1 := atan2 (-(W 1 2) / c2) (W 2 2 / c2)
      [[q1, q2, q3]]

/-- decompose_transformation(W): q123 = go(-1) + go(1), each candidate
prefixed with the translation [W[0,3], W[1,3], W[2,3]] -/
def decompose_transformation (W : M4) : List (List ℝ) :=
  (go_branch W (-1) ++ go_branch W 1).map fun q => [W 0 3, W 1 3, W 2 3] ++ q

/-- t0 = 0 -/
def tStart : ℝ := 0

/-- tf = 10 -/
def tFinal : ℝ := 10

/-- n_steps = 10000 -/
def n_steps : ℝ := 10000

/-- k = (tf-t0)/n_steps -/
def k : ℝ := (tFinal - tStart) / n_steps

/-- the state_space closure inside solve_motion: fk = full chain at y,
J = jacobian(fk), xi = decompose(fk[-1])[0], dx = (x1-xi)*k, result J.dot(dx).
numpy raises a broadcast ValueError in (x1-xi) when the two arrays have
different lengths (the degenerate decompose branch makes xi a 3-element
array), and J.dot(dx) requires a 6-vector; both error paths are modelled
as none. -/
def state_space (x1 : List ℝ) (y : Fin 6 → ℝ) (t : ℝ) : Option (Fin 6 → ℝ) :=
  let fk := get_fk_solution_full y
  let J := jacobian fk
  let xi := (decompose_transformation (fk.getLastD 0)).getD 0 []
  if x1.length = xi.length ∧ xi.length = 6 then
    some (fun i => ∑ j : Fin 6, J i j * ((x1.getD (j : ℕ) 0 - xi.getD (j : ℕ) 0) * k))
  else none

/-- get_fk_solution on a raw list of joint values, modelling the Python
dynamic semantics: zip(ts_num, qs) silently truncates to the shorter list,
and the chaining loop raises IndexError (modelled as none) when fewer than
6 transforms are present -/
def get_fk_solution_list (qs : List ℝ) : Option M4 :=
  let ts := List.zipWith (fun t q => t q) (List.ofFn (fun i : Fin 6 => dh i)) qs
  if 6 ≤ ts.length then some ((chainmul ts).getLastD 0) else none

/-- the 3x3 rotation block of a homogeneous transform -/
def rotBlock (T : M4) : M3 :=
  fun i j => T (toF4 i) (toF4 j)

/-- bottom row is [0,0,0,1] -/
def bottomRowOK (T : M4) : Prop :=
  T 3 0 = 0 ∧ T 3 1 = 0 ∧ T 3 2 = 0 ∧ T 3 3 = 1

/-- a valid homogeneous transform: orthonormal rotation block of determinant 1
and bottom row [0,0,0,1] -/
def isValidHT (T : M4) : Prop :=
  (rotBlock T)ᵀ * rotBlock T = 1 ∧ (rotBlock T).det = 1 ∧ bottomRowOK T

/-- 3x3 rotation about x -/
def rot3x (a : ℝ) : M3 :=
  !![1, 0,          0;
     0, Real.cos a, -Real.sin a;
     0, Real.sin a,  Real.cos a]

/-- 3x3 rotation about y -/
def rot3y (a : ℝ) : M3 :=
  !![ Real.cos a, 0, Real.sin a;
      0,          1, 0;
     -Real.sin a, 0, Real.cos a]

/-- 3x3 rotation about z -/
def rot3z (a : ℝ) : M3 :=
  !![Real.cos a, -Real.sin a, 0;
     Real.sin a,  Real.cos a, 0;
     0,           0,          1]

/-- Modelled from the spec: the convention under which the angle triple
returned by decompose_transformation represents the rotation block, used to
rebuild a rotation matrix from a candidate (the rebuild step itself is not in
the source).  The angles (a1, a2, a3) denote the factorisation
Rx(a1) * Ry(a2) * Rz(a3). -/
def recompose (a1 a2 a3 : ℝ) : M3 :=
  rot3x a1 * rot3y a2 * rot3z a3

/-- The angle triple of one branch of the pose decomposer as the claim states
it: identical formulas to go_branch except that the inner branch is selected
by the exact test cos a3 = 0 rather than the eps-tolerant test of the code. -/
def specAngles (W : M4) (m2 : ℝ) : List ℝ :=
  let a3 := atan2 (-(W 0 1) * m2) (W 0 0 * m2)
  let c3 := Real.cos a3
  let a2 := if c3 ≠ 0 then atan2 (W 0 2) (W 0 0 / c3)
            else atan2 (W 0 2) (W 0 1 / -(Real.sin a3))
  let c2 := Real.cos a2
  let a1 := atan2 (-(W 1 2) / c2) (W 2 2 / c2)
  [a1, a2, a3]

lemma fk_full_explicit (qs : Fin 6 → ℝ) :
    get_fk_solution_full qs =
      [dh 0 (qs 0),
       dh 0 (qs 0) * dh 1 (qs 1),
       dh 0 (qs 0) * dh 1 (qs 1) * dh 2 (qs 2),
       dh 0 (qs 0) * dh 1 (qs 1) * dh 2 (qs 2) * dh 3 (qs 3),
       dh 0 (qs 0) * dh 1 (qs 1) * dh 2 (qs 2) * dh 3 (qs 3) * dh 4 (qs 4),
       dh 0 (qs 0) * dh 1 (qs 1) * dh 2 (qs 2) * dh 3 (qs 3) * dh 4 (qs 4) * dh 5 (qs 5)] := by
  rfl

/-- C1 amended: the vector field does not depend on t and uses the fixed
constant k = (tf - t0)/n_steps = 0.001, and whenever the target pose has 6
entries and the first candidate of decomposing the end-effector frame is a
full 6-element pose (decomposition non-degenerate), it returns J times
Delta with Delta = (target - currentPose) * k.  At configurations where the
decomposer takes its degenerate branch the first candidate has only 3
entries and the program raises a numpy broadcast error instead of returning
a velocity (modelled as none). -/
theorem vectorField_formula :
    k = 1 / 1000 ∧
    ∀ (x1 : List ℝ) (y : Fin 6 → ℝ) (t s : ℝ),
      state_space x1 y t = state_space x1 y s ∧
      (x1.length = 6 →
        ((decompose_transformation (get_fk_solution_ee y)).getD 0 []).length = 6 →
        state_space x1 y t = some (fun i => ∑ j : Fin 6,
          jacobian (get_fk_solution_full y) i j *
            ((x1.getD (j : ℕ) 0 -
                ((decompose_transformation (get_fk_solution_ee y)).getD 0 []).getD (j : ℕ) 0)
              * k))) := by
  refine ⟨by norm_num [k, tFinal, tStart, n_steps], ?_⟩
  intro x1 y t s
  refine ⟨rfl, ?_⟩
  intro h1 h2
  have hcond : x1.length =
      ((decompose_transformation ((get_fk_solution_full y).getLastD 0)).getD 0 []).length ∧
      ((decompose_transformation ((get_fk_solution_full y).getLastD 0)).getD 0 []).length = 6 := by
    refine ⟨?_, h2⟩
    rw [h1]
    exact h2.symm
  simp only [state_space]
  rw [if_pos hcond]
  rfl

/-- C2 counterexample: the full-chain forward kinematics returns 6 frames,
not 7, at the all-zero configuration. -/
theorem fk_chain_length_cex :
    (get_fk_solution_full input_initial).length = 6 ∧
    (get_fk_solution_full input_initial).length ≠ 7 := by
  rw [fk_full_explicit]
  exact ⟨rfl, by norm_num⟩

/-- C2 amended: the full chain has exactly 6 frames (the identity base frame
is not included in the returned list); frame 0 is transform(0, q 0), frame i+1
equals frame i times transform(i+1, q (i+1)), and the ee variant returns the
last element of the chain. -/
theorem fk_chain_structure :
    ∀ qs : Fin 6 → ℝ,
      (get_fk_solution_full qs).length = 6 ∧
      (get_fk_solution_full qs).getD 0 1 = dh 0 (qs 0) ∧
      (∀ i : Fin 5,
        (get_fk_solution_full qs).getD ((i : ℕ) + 1) 1 =
          (get_fk_solution_full qs).getD (i : ℕ) 1 * dh i.succ (qs i.succ)) ∧
      get_fk_solution_ee qs = (get_fk_solution_full qs).getLastD 0 := by
  intro qs
  rw [fk_full_explicit]
  refine ⟨rfl, rfl, ?_, ?_⟩
  · intro i
    fin_cases i <;> rfl
  · rw [get_fk_solution_ee, fk_full_explicit]

/-- C3: column i of the Jacobian is the cross product of the joint axis
z_i (third column of the rotation block of frame i, counting the prepended
identity base frame) with o_ee - o_i in rows 0..2, and z_i itself in rows
3..5. -/
theorem jacobian_column_formula :
    ∀ (frames : List M4) (i : Fin 6) (r : Fin 3),
      jacobian frames (lo r) i =
        cross3 (fun s => (((1 : M4) :: frames).getD (i : ℕ) 0) (toF4 s) 2)
          (fun s => (((1 : M4) :: frames).getLastD 0) (toF4 s) 3 -
            (((1 : M4) :: frames).getD (i : ℕ) 0) (toF4 s) 3) r ∧
      jacobian frames (hi r) i = (((1 : M4) :: frames).getD (i : ℕ) 0) (toF4 r) 2 := by
  intro frames i r
  constructor
  · simp only [jacobian]
    rw [dif_pos (show ((lo r) : ℕ) < 3 from r.2)]
    rfl
  · simp only [jacobian]
    rw [dif_neg (show ¬ ((hi r) : ℕ) < 3 by simp [hi])]
    rfl

lemma go_branch_nondeg (W : M4) (m2 : ℝ) (h : ¬ eqR |W 0 2| 0) :
    ∃ a b c : ℝ, go_branch W m2 = [[a, b, c]] := by
  simp only [go_branch]
  rw [if_neg h]
  by_cases hc : eqR (Real.cos (atan2 (-(W 0 1) * m2) (W 0 0 * m2))) 0
  · rw [if_neg (not_not_intro hc)]
    exact ⟨_, _, _, rfl⟩
  · rw [if_pos hc]
    exact ⟨_, _, _, rfl⟩

lemma eqR_abs_zero (a : ℝ) : eqR |a| 0 ↔ |a| < eps := by
  simp [eqR]

/-- C10: decompose always returns exactly two candidates; in the degenerate
case they are the 3-element translation-only vectors, otherwise full
6-element poses. -/
theorem decompose_always_two_candidates (W : M4) :
    (decompose_transformation W).length = 2 ∧
    (decompose_transformation W).map List.length =
      (if |W 0 2| < eps then [3, 3] else [6, 6]) := by
  by_cases h : |W 0 2| < eps
  · constructor
    · simp [decompose_transformation, go_branch, h]
    · rw [if_pos h]
      simp [decompose_transformation, go_branch, h]
  · have hd : ¬ eqR |W 0 2| 0 := fun hh => h ((eqR_abs_zero _).mp hh)
    obtain ⟨a1, b1, c1, h1⟩ := go_branch_nondeg W (-1) hd
    obtain ⟨a2, b2, c2, h2⟩ := go_branch_nondeg W 1 hd
    constructor
    · simp [decompose_transformation, h1, h2]
    · rw [if_neg h]
      simp [decompose_transformation, h1, h2]

/-- C5: decompose returns one or two candidates and never zero; in the
degenerate case both branches return the empty angle candidate, so each
returned pose holds only the translation. -/
theorem decompose_never_empty (W : M4) :
    (((decompose_transformation W).length = 1 ∨ (decompose_transformation W).length = 2) ∧
      (decompose_transformation W).length ≠ 0) ∧
    (|W 0 2| < eps →
      decompose_transformation W =
        [[W 0 3, W 1 3, W 2 3], [W 0 3, W 1 3, W 2 3]]) := by
  constructor
  · by_cases h : |W 0 2| < eps
    · refine ⟨Or.inr ?_, ?_⟩ <;> simp [decompose_transformation, go_branch, h]
    · have hd : ¬ eqR |W 0 2| 0 := fun hh => h ((eqR_abs_zero _).mp hh)
      obtain ⟨a1, b1, c1, h1⟩ := go_branch_nondeg W (-1) hd
      obtain ⟨a2, b2, c2, h2⟩ := go_branch_nondeg W 1 hd
      refine ⟨Or.inr ?_, ?_⟩ <;> simp [decompose_transformation, h1, h2]
  · intro hlt
    simp [decompose_transformation, go_branch, hlt]

/-- C5 witness: at the identity transform the degenerate case applies and the
two candidates are the translation (0,0,0). -/
theorem decompose_never_empty_witness :
    |(1 : M4) 0 2| < eps ∧
    decompose_transformation (1 : M4) =
      [[(1 : M4) 0 3, (1 : M4) 1 3, (1 : M4) 2 3],
       [(1 : M4) 0 3, (1 : M4) 1 3, (1 : M4) 2 3]] := by
  have h : |(1 : M4) 0 2| < eps := by
    norm_num [Matrix.one_apply, eps, Fin.ext_iff]
  exact ⟨h, (decompose_never_empty 1).2 h⟩

lemma zipWith_app_take (l : List (ℝ → M4)) (qs : List ℝ) :
    List.zipWith (fun t q => t q) l qs =
      List.zipWith (fun t q => t q) l (qs.take l.length) := by
  induction l generalizing qs with
  | nil => simp
  | cons t rest ih =>
    cases qs with
    | nil => simp
    | cons q qrest =>
      simp only [List.zipWith_cons_cons, List.length_cons, List.take_succ_cons]
      rw [← ih qrest]

/-- C8 counterexample: a joint vector of length 7 is not rejected; the code
silently truncates it and produces a forward-kinematics result. -/
theorem shape_check_cex :
    (List.replicate 7 (0 : ℝ)).length ≠ 6 ∧
    get_fk_solution_list (List.replicate 7 (0 : ℝ)) ≠ none := by
  constructor
  · simp
  · have hl : (List.zipWith (fun t q => t q) (List.ofFn fun i : Fin 6 => dh i)
        (List.replicate 7 (0 : ℝ))).length = 6 := by
      rw [List.length_zipWith, List.length_ofFn, List.length_replicate]
      norm_num
    simp only [get_fk_solution_list]
    rw [hl, if_pos (le_refl 6)]
    simp

/-- C8 amended: no shape validation is performed.  The list-level forward
kinematics fails (with an out-of-range access, modelled as none) exactly when
fewer than 6 joint values are supplied, and a longer vector is silently
truncated to its first 6 entries. -/
theorem shape_behavior_amended :
    ∀ qs : List ℝ,
      (get_fk_solution_list qs = none ↔ qs.length < 6) ∧
      get_fk_solution_list qs = get_fk_solution_list (qs.take 6) := by
  intro qs
  have hlen : (List.zipWith (fun t q => t q) (List.ofFn fun i : Fin 6 => dh i) qs).length
      = min 6 qs.length := by
    rw [List.length_zipWith, List.length_ofFn]
  have hts : List.zipWith (fun t q => t q) (List.ofFn fun i : Fin 6 => dh i) qs
      = List.zipWith (fun t q => t q) (List.ofFn fun i : Fin 6 => dh i) (qs.take 6) := by
    have h6 : (List.ofFn fun i : Fin 6 => dh i).length = 6 := List.length_ofFn _
    rw [zipWith_app_take, h6]
  constructor
  · simp only [get_fk_solution_list]
    rw [hlen]
    by_cases h6 : 6 ≤ qs.length
    · rw [if_pos (le_min (le_refl 6) h6)]
      constructor
      · intro hc
        exact absurd hc (by simp)
      · intro hc
        exact absurd h6 (Nat.not_le.mpr hc)
    · rw [if_neg (fun hc => h6 (le_trans hc (min_le_right 6 qs.length)))]
      exact ⟨fun _ => Nat.not_le.mp h6, fun _ => rfl⟩
  · simp only [get_fk_solution_list]
    rw [hts]

lemma l1_val : l1 = 1 := rfl
lemma l2_val : l2 = 1 := rfl
lemma l3_val : l3 = 1 := rfl
lemma l4_val : l4 = 1 := rfl
lemma l5_val : l5 = 1 := rfl
lemma l6_val : l6 = 1 := rfl

lemma dh0_zero : dh 0 0 = !![1,0,0,0; 0,0,-1,0; 0,1,0,1; 0,0,0,1] := by
  show rotZ 0 * transZ l1 * transX 0 * rotX (Real.pi / 2) = _
  ext i j
  fin_cases i <;> fin_cases j <;>
    norm_num [rotZ, rotX, transZ, transX, l1_val, Matrix.mul_apply,
      Fin.sum_univ_four, Real.cos_pi_div_two, Real.sin_pi_div_two,
      Matrix.vecHead, Matrix.vecTail]

lemma dh1_zero : dh 1 0 = !![1,0,0,1; 0,1,0,0; 0,0,1,0; 0,0,0,1] := by
  show rotZ 0 * transZ 0 * transX l2 * rotX 0 = _
  ext i j
  fin_cases i <;> fin_cases j <;>
    norm_num [rotZ, rotX, transZ, transX, l2_val, Matrix.mul_apply,
      Fin.sum_univ_four, Matrix.vecHead, Matrix.vecTail]

lemma dh2_zero : dh 2 0 = !![1,0,0,1; 0,0,1,0; 0,-1,0,0; 0,0,0,1] := by
  show rotZ 0 * transZ 0 * transX l3 * rotX (-(Real.pi / 2)) = _
  ext i j
  fin_cases i <;> fin_cases j <;>
    norm_num [rotZ, rotX, transZ, transX, l3_val, Matrix.mul_apply,
      Fin.sum_univ_four, Real.cos_pi_div_two, Real.sin_pi_div_two,
      Real.cos_neg, Real.sin_neg, Matrix.vecHead, Matrix.vecTail]

lemma dh3_zero : dh 3 0 = !![1,0,0,0; 0,0,1,0; 0,-1,0,1; 0,0,0,1] := by
  show rotZ 0 * transZ l4 * transX 0 * rotX (-(Real.pi / 2)) = _
  ext i j
  fin_cases i <;> fin_cases j <;>
    norm_num [rotZ, rotX, transZ, transX, l4_val, Matrix.mul_apply,
      Fin.sum_univ_four, Real.cos_pi_div_two, Real.sin_pi_div_two,
      Real.cos_neg, Real.sin_neg, Matrix.vecHead, Matrix.vecTail]

lemma dh4_zero : dh 4 0 = !![0,0,1,0; -1,0,0,0; 0,-1,0,0; 0,0,0,1] := by
  show rotZ (0 - Real.pi / 2) * transZ 0 * transX 0 * rotX (-(Real.pi / 2)) = _
  ext i j
  fin_cases i <;> fin_cases j <;>
    norm_num [rotZ, rotX, transZ, transX, Matrix.mul_apply, zero_sub,
      Fin.sum_univ_four, Real.cos_pi_div_two, Real.sin_pi_div_two,
      Real.cos_neg, Real.sin_neg, Matrix.vecHead, Matrix.vecTail]

lemma dh5_zero : dh 5 0 = !![1,0,0,0; 0,1,0,0; 0,0,1,2; 0,0,0,1] := by
  show rotZ 0 * transZ (l5 + l6) * transX 0 * rotX 0 = _
  ext i j
  fin_cases i <;> fin_cases j <;>
    norm_num [rotZ, rotX, transZ, transX, l5_val, l6_val, Matrix.mul_apply,
      Fin.sum_univ_four, Matrix.vecHead, Matrix.vecTail]

lemma chain2_zero :
    (!![1,0,0,0; 0,0,-1,0; 0,1,0,1; 0,0,0,1] : M4) * !![1,0,0,1; 0,1,0,0; 0,0,1,0; 0,0,0,1] =
      !![1,0,0,1; 0,0,-1,0; 0,1,0,1; 0,0,0,1] := by
  ext i j
  fin_cases i <;> fin_cases j <;>
    norm_num [Matrix.mul_apply, Fin.sum_univ_four, Matrix.vecHead, Matrix.vecTail]

lemma chain3_zero :
    (!![1,0,0,1; 0,0,-1,0; 0,1,0,1; 0,0,0,1] : M4) * !![1,0,0,1; 0,0,1,0; 0,-1,0,0; 0,0,0,1] =
      !![1,0,0,2; 0,1,0,0; 0,0,1,1; 0,0,0,1] := by
  ext i j
  fin_cases i <;> fin_cases j <;>
    norm_num [Matrix.mul_apply, Fin.sum_univ_four, Matrix.vecHead, Matrix.vecTail]

lemma chain4_zero :
    (!![1,0,0,2; 0,1,0,0; 0,0,1,1; 0,0,0,1] : M4) * !![1,0,0,0; 0,0,1,0; 0,-1,0,1; 0,0,0,1] =
      !![1,0,0,2; 0,0,1,0; 0,-1,0,2; 0,0,0,1] := by
  ext i j
  fin_cases i <;> fin_cases j <;>
    norm_num [Matrix.mul_apply, Fin.sum_univ_four, Matrix.vecHead, Matrix.vecTail]

lemma chain5_zero :
    (!![1,0,0,2; 0,0,1,0; 0,-1,0,2; 0,0,0,1] : M4) * !![0,0,1,0; -1,0,0,0; 0,-1,0,0; 0,0,0,1] =
      !![0,0,1,2; 0,-1,0,0; 1,0,0,2; 0,0,0,1] := by
  ext i j
  fin_cases i <;> fin_cases j <;>
    norm_num [Matrix.mul_apply, Fin.sum_univ_four, Matrix.vecHead, Matrix.vecTail]

lemma chain6_zero :
    (!![0,0,1,2; 0,-1,0,0; 1,0,0,2; 0,0,0,1] : M4) * !![1,0,0,0; 0,1,0,0; 0,0,1,2; 0,0,0,1] =
      !![0,0,1,4; 0,-1,0,0; 1,0,0,2; 0,0,0,1] := by
  ext i j
  fin_cases i <;> fin_cases j <;>
    norm_num [Matrix.mul_apply, Fin.sum_univ_four, Matrix.vecHead, Matrix.vecTail]

lemma input_initial_val (i : Fin 6) : input_initial i = 0 := by
  fin_cases i <;> rfl

lemma fk_zero :
    get_fk_solution_full input_initial =
      [!![1,0,0,0; 0,0,-1,0; 0,1,0,1; 0,0,0,1],
       !![1,0,0,1; 0,0,-1,0; 0,1,0,1; 0,0,0,1],
       !![1,0,0,2; 0,1,0,0; 0,0,1,1; 0,0,0,1],
       !![1,0,0,2; 0,0,1,0; 0,-1,0,2; 0,0,0,1],
       !![0,0,1,2; 0,-1,0,0; 1,0,0,2; 0,0,0,1],
       !![0,0,1,4; 0,-1,0,0; 1,0,0,2; 0,0,0,1]] := by
  rw [fk_full_explicit]
  simp only [input_initial_val]
  rw [dh0_zero, dh1_zero, dh2_zero, dh3_zero, dh4_zero, dh5_zero,
    chain2_zero, chain3_zero, chain4_zero, chain5_zero, chain6_zero]

lemma ee_zero :
    get_fk_solution_ee input_initial = !![0,0,1,4; 0,-1,0,0; 1,0,0,2; 0,0,0,1] := by
  rw [get_fk_solution_ee, fk_zero]
  rfl

/-- C7 counterexample: at the all-zero configuration the z-component of the
end-effector translation is 2, not 4. -/
theorem ee_z_at_zero_cex :
    get_fk_solution_ee input_initial 2 3 = 2 ∧ (2 : ℝ) ≠ 4 := by
  rw [ee_zero]
  constructor
  · simp [Matrix.vecHead, Matrix.vecTail]
  · norm_num

/-- C7 amended: at the all-zero configuration the z-component of the
end-effector translation equals l1 + l4 = 2: only the z-axis offsets applied
before the wrist rotations contribute to the world z-axis, while the
l5 + l6 offset is rotated onto the world x-axis. -/
theorem ee_z_at_zero_amended :
    get_fk_solution_ee input_initial 2 3 = l1 + l4 ∧ l1 + l4 = 2 := by
  have h2 : l1 + l4 = 2 := by
    norm_num [l1_val, l4_val]
  refine ⟨?_, h2⟩
  rw [ee_zero, h2]
  simp [Matrix.vecHead, Matrix.vecTail]

lemma atan2_zero_zero : atan2 0 0 = 0 := by
  unfold atan2
  norm_num

lemma atan2_one_zero : atan2 1 0 = Real.pi / 2 := by
  unfold atan2
  norm_num

lemma go_branch_P6 (m2 : ℝ) :
    go_branch (!![0,0,1,4; 0,-1,0,0; 1,0,0,2; 0,0,0,1] : M4) m2 = [[0, Real.pi / 2, 0]] := by
  have e00 : (!![0,0,1,4; 0,-1,0,0; 1,0,0,2; 0,0,0,1] : M4) 0 0 = 0 := by simp
  have e01 : (!![0,0,1,4; 0,-1,0,0; 1,0,0,2; 0,0,0,1] : M4) 0 1 = 0 := by simp
  have e02 : (!![0,0,1,4; 0,-1,0,0; 1,0,0,2; 0,0,0,1] : M4) 0 2 = 1 := by simp
  have e12 : (!![0,0,1,4; 0,-1,0,0; 1,0,0,2; 0,0,0,1] : M4) 1 2 = 0 := by
    simp [Matrix.vecHead, Matrix.vecTail]
  have e22 : (!![0,0,1,4; 0,-1,0,0; 1,0,0,2; 0,0,0,1] : M4) 2 2 = 0 := by
    simp [Matrix.vecHead, Matrix.vecTail]
  simp only [go_branch, e00, e01, e02, e12, e22]
  rw [if_neg (show ¬ eqR |(1 : ℝ)| 0 by norm_num [eqR, eps])]
  simp only [neg_zero, zero_mul, atan2_zero_zero, Real.cos_zero]
  rw [if_pos (show ¬ eqR (1 : ℝ) 0 by norm_num [eqR, eps])]
  simp only [zero_div, atan2_one_zero, Real.cos_pi_div_two, div_zero, neg_zero,
    atan2_zero_zero]

lemma decompose_P6 :
    decompose_transformation (!![0,0,1,4; 0,-1,0,0; 1,0,0,2; 0,0,0,1] : M4) =
      [[4, 0, 2, 0, Real.pi / 2, 0], [4, 0, 2, 0, Real.pi / 2, 0]] := by
  simp only [decompose_transformation, go_branch_P6]
  norm_num [Matrix.vecHead, Matrix.vecTail]

lemma toF4_zero : toF4 0 = 0 := rfl

lemma toF4_one : toF4 1 = 1 := rfl

lemma toF4_two : toF4 2 = 2 := rfl

lemma rotBlock_rotZ (a : ℝ) : rotBlock (rotZ a) = rot3z a := by
  ext i j
  fin_cases i <;> fin_cases j <;>
    simp [rotBlock, rotZ, rot3z, toF4_zero, toF4_one, toF4_two,
      Matrix.vecHead, Matrix.vecTail]

lemma rotBlock_rotX (a : ℝ) : rotBlock (rotX a) = rot3x a := by
  ext i j
  fin_cases i <;> fin_cases j <;>
    simp [rotBlock, rotX, rot3x, toF4_zero, toF4_one, toF4_two,
      Matrix.vecHead, Matrix.vecTail]

lemma rotBlock_transZ (d : ℝ) : rotBlock (transZ d) = 1 := by
  ext i j
  fin_cases i <;> fin_cases j <;>
    simp [rotBlock, transZ, toF4_zero, toF4_one, toF4_two, Matrix.one_apply,
      Matrix.vecHead, Matrix.vecTail]

lemma rotBlock_transX (d : ℝ) : rotBlock (transX d) = 1 := by
  ext i j
  fin_cases i <;> fin_cases j <;>
    simp [rotBlock, transX, toF4_zero, toF4_one, toF4_two, Matrix.one_apply,
      Matrix.vecHead, Matrix.vecTail]

lemma rot3z_orth (a : ℝ) : (rot3z a)ᵀ * rot3z a = 1 := by
  ext i j
  fin_cases i <;> fin_cases j <;>
    simp [rot3z, Matrix.mul_apply, Fin.sum_univ_three, Matrix.transpose_apply,
      Matrix.one_apply, Matrix.vecHead, Matrix.vecTail] <;>
    nlinarith [Real.sin_sq_add_cos_sq a]

lemma rot3z_det (a : ℝ) : (rot3z a).det = 1 := by
  rw [Matrix.det_fin_three]
  simp [rot3z, Matrix.vecHead, Matrix.vecTail]
  nlinarith [Real.sin_sq_add_cos_sq a]

lemma rot3x_orth (a : ℝ) : (rot3x a)ᵀ * rot3x a = 1 := by
  ext i j
  fin_cases i <;> fin_cases j <;>
    simp [rot3x, Matrix.mul_apply, Fin.sum_univ_three, Matrix.transpose_apply,
      Matrix.one_apply, Matrix.vecHead, Matrix.vecTail] <;>
    nlinarith [Real.sin_sq_add_cos_sq a]

lemma rot3x_det (a : ℝ) : (rot3x a).det = 1 := by
  rw [Matrix.det_fin_three]
  simp [rot3x, Matrix.vecHead, Matrix.vecTail]
  nlinarith [Real.sin_sq_add_cos_sq a]

lemma rotZ_bottom (a : ℝ) : bottomRowOK (rotZ a) := by
  refine ⟨?_, ?_, ?_, ?_⟩ <;> simp [rotZ, Matrix.vecHead, Matrix.vecTail]

lemma rotX_bottom (a : ℝ) : bottomRowOK (rotX a) := by
  refine ⟨?_, ?_, ?_, ?_⟩ <;> simp [rotX, Matrix.vecHead, Matrix.vecTail]

lemma transZ_bottom (d : ℝ) : bottomRowOK (transZ d) := by
  refine ⟨?_, ?_, ?_, ?_⟩ <;> simp [transZ, Matrix.vecHead, Matrix.vecTail]

lemma transX_bottom (d : ℝ) : bottomRowOK (transX d) := by
  refine ⟨?_, ?_, ?_, ?_⟩ <;> simp [transX, Matrix.vecHead, Matrix.vecTail]

lemma rotBlock_mul (A B : M4) (hB : bottomRowOK B) :
    rotBlock (A * B) = rotBlock A * rotBlock B := by
  obtain ⟨hb0, hb1, hb2, hb3⟩ := hB
  have hb : ∀ j : Fin 3, B 3 (toF4 j) = 0 := by
    intro j
    fin_cases j
    · exact hb0
    · exact hb1
    · exact hb2
  ext i j
  simp only [rotBlock, Matrix.mul_apply, Fin.sum_univ_four, Fin.sum_univ_three,
    toF4_zero, toF4_one, toF4_two, hb, mul_zero, add_zero]

lemma bottomRow_mul (A B : M4) (hA : bottomRowOK A) (hB : bottomRowOK B) :
    bottomRowOK (A * B) := by
  obtain ⟨ha0, ha1, ha2, ha3⟩ := hA
  obtain ⟨hb0, hb1, hb2, hb3⟩ := hB
  refine ⟨?_, ?_, ?_, ?_⟩ <;>
    simp [Matrix.mul_apply, Fin.sum_univ_four, ha0, ha1, ha2, ha3, hb0, hb1, hb2, hb3]

lemma valid_mul {A B : M4} (hA : isValidHT A) (hB : isValidHT B) :
    isValidHT (A * B) := by
  obtain ⟨hAo, hAd, hA3⟩ := hA
  obtain ⟨hBo, hBd, hB3⟩ := hB
  have hblock := rotBlock_mul A B hB3
  refine ⟨?_, ?_, bottomRow_mul A B hA3 hB3⟩
  · rw [hblock, Matrix.transpose_mul, Matrix.mul_assoc,
      ← Matrix.mul_assoc (rotBlock A)ᵀ, hAo, Matrix.one_mul, hBo]
  · rw [hblock, Matrix.det_mul, hAd, hBd, one_mul]

lemma rotZ_valid (a : ℝ) : isValidHT (rotZ a) := by
  refine ⟨?_, ?_, rotZ_bottom a⟩
  · rw [rotBlock_rotZ]
    exact rot3z_orth a
  · rw [rotBlock_rotZ]
    exact rot3z_det a

lemma rotX_valid (a : ℝ) : isValidHT (rotX a) := by
  refine ⟨?_, ?_, rotX_bottom a⟩
  · rw [rotBlock_rotX]
    exact rot3x_orth a
  · rw [rotBlock_rotX]
    exact rot3x_det a

lemma transZ_valid (d : ℝ) : isValidHT (transZ d) := by
  refine ⟨?_, ?_, transZ_bottom d⟩
  · rw [rotBlock_transZ, Matrix.transpose_one, Matrix.one_mul]
  · rw [rotBlock_transZ, Matrix.det_one]

lemma transX_valid (d : ℝ) : isValidHT (transX d) := by
  refine ⟨?_, ?_, transX_bottom d⟩
  · rw [rotBlock_transX, Matrix.transpose_one, Matrix.one_mul]
  · rw [rotBlock_transX, Matrix.det_one]

lemma dh_valid (i : Fin 6) (q : ℝ) : isValidHT (dh i q) := by
  fin_cases i
  · exact valid_mul (valid_mul (valid_mul (rotZ_valid q) (transZ_valid l1))
      (transX_valid 0)) (rotX_valid (Real.pi / 2))
  · exact valid_mul (valid_mul (valid_mul (rotZ_valid q) (transZ_valid 0))
      (transX_valid l2)) (rotX_valid 0)
  · exact valid_mul (valid_mul (valid_mul (rotZ_valid q) (transZ_valid 0))
      (transX_valid l3)) (rotX_valid (-(Real.pi / 2)))
  · exact valid_mul (valid_mul (valid_mul (rotZ_valid q) (transZ_valid l4))
      (transX_valid 0)) (rotX_valid (-(Real.pi / 2)))
  · exact valid_mul (valid_mul (valid_mul (rotZ_valid (q - Real.pi / 2)) (transZ_valid 0))
      (transX_valid 0)) (rotX_valid (-(Real.pi / 2)))
  · exact valid_mul (valid_mul (valid_mul (rotZ_valid q) (transZ_valid (l5 + l6)))
      (transX_valid 0)) (rotX_valid 0)

/-- C9: every per-joint DH transform at every angle, and every frame of the
forward-kinematics chain, is a valid homogeneous transform: orthonormal
rotation block of determinant 1 and bottom row [0,0,0,1]. -/
theorem transforms_valid :
    (∀ (i : Fin 6) (q : ℝ), isValidHT (dh i q)) ∧
    ∀ (qs : Fin 6 → ℝ) (i : Fin 6), isValidHT ((get_fk_solution_full qs).getD (i : ℕ) 1) := by
  refine ⟨dh_valid, ?_⟩
  intro qs i
  rw [fk_full_explicit]
  fin_cases i
  · exact dh_valid 0 (qs 0)
  · exact valid_mul (dh_valid 0 (qs 0)) (dh_valid 1 (qs 1))
  · exact valid_mul (valid_mul (dh_valid 0 (qs 0)) (dh_valid 1 (qs 1))) (dh_valid 2 (qs 2))
  · exact valid_mul (valid_mul (valid_mul (dh_valid 0 (qs 0)) (dh_valid 1 (qs 1)))
      (dh_valid 2 (qs 2))) (dh_valid 3 (qs 3))
  · exact valid_mul (valid_mul (valid_mul (valid_mul (dh_valid 0 (qs 0)) (dh_valid 1 (qs 1)))
      (dh_valid 2 (qs 2))) (dh_valid 3 (qs 3))) (dh_valid 4 (qs 4))
  · exact valid_mul (valid_mul (valid_mul (valid_mul (valid_mul (dh_valid 0 (qs 0))
      (dh_valid 1 (qs 1))) (dh_valid 2 (qs 2))) (dh_valid 3 (qs 3))) (dh_valid 4 (qs 4)))
      (dh_valid 5 (qs 5))

lemma atan2_pos_zero (y : ℝ) (hy : 0 < y) : atan2 y 0 = Real.pi / 2 := by
  unfold atan2
  rw [if_neg (lt_irrefl 0), if_neg (lt_irrefl 0), if_pos hy]

lemma atan2_neg_zero (y : ℝ) (hy : y < 0) : atan2 y 0 = -(Real.pi / 2) := by
  unfold atan2
  rw [if_neg (lt_irrefl 0), if_neg (lt_irrefl 0), if_neg (by linarith), if_pos hy]

lemma sqrt_aux (x y : ℝ) (hx : x ≠ 0) :
    Real.sqrt (1 + (y / x) ^ 2) = Real.sqrt (x ^ 2 + y ^ 2) / |x| := by
  have h1 : 1 + (y / x) ^ 2 = (x ^ 2 + y ^ 2) / x ^ 2 := by
    field_simp
  rw [h1, Real.sqrt_div (by positivity) (x ^ 2), Real.sqrt_sq_eq_abs]

lemma sum_sq_pos (x y : ℝ) (h : ¬(x = 0 ∧ y = 0)) : 0 < x ^ 2 + y ^ 2 := by
  rcases not_and_or.mp h with hx | hy
  · have h2 : 0 < x ^ 2 := by positivity
    nlinarith [sq_nonneg y]
  · have h2 : 0 < y ^ 2 := by positivity
    nlinarith [sq_nonneg x]

lemma cos_atan2 (y x : ℝ) (h : ¬(x = 0 ∧ y = 0)) :
    Real.cos (atan2 y x) = x / Real.sqrt (x ^ 2 + y ^ 2) := by
  unfold atan2
  rcases lt_trichotomy 0 x with hx | hx | hx
  · rw [if_pos hx, Real.cos_arctan, sqrt_aux x y (ne_of_gt hx), abs_of_pos hx, one_div_div]
  · have hy : y ≠ 0 := by
      rintro rfl
      exact h ⟨hx.symm, rfl⟩
    subst hx
    rw [if_neg (lt_irrefl 0), if_neg (lt_irrefl 0)]
    rcases hy.lt_or_lt with hy1 | hy1
    · rw [if_neg (not_lt.mpr hy1.le), if_pos hy1, Real.cos_neg, Real.cos_pi_div_two, zero_div]
    · rw [if_pos hy1, Real.cos_pi_div_two, zero_div]
  · rw [if_neg (by linarith), if_pos hx]
    by_cases hy : 0 ≤ y
    · rw [if_pos hy, Real.cos_add_pi, Real.cos_arctan, sqrt_aux x y (ne_of_lt hx),
        abs_of_neg hx, one_div_div]
      ring
    · rw [if_neg hy, Real.cos_sub_pi, Real.cos_arctan, sqrt_aux x y (ne_of_lt hx),
        abs_of_neg hx, one_div_div]
      ring

lemma sin_atan2 (y x : ℝ) (h : ¬(x = 0 ∧ y = 0)) :
    Real.sin (atan2 y x) = y / Real.sqrt (x ^ 2 + y ^ 2) := by
  have hs : 0 < Real.sqrt (x ^ 2 + y ^ 2) := Real.sqrt_pos.mpr (sum_sq_pos x y h)
  have hsne : Real.sqrt (x ^ 2 + y ^ 2) ≠ 0 := ne_of_gt hs
  unfold atan2
  rcases lt_trichotomy 0 x with hx | hx | hx
  · rw [if_pos hx, Real.sin_arctan, sqrt_aux x y (ne_of_gt hx), abs_of_pos hx]
    field_simp
  · have hy : y ≠ 0 := by
      rintro rfl
      exact h ⟨hx.symm, rfl⟩
    subst hx
    rw [if_neg (lt_irrefl 0), if_neg (lt_irrefl 0)]
    have hsq : Real.sqrt ((0 : ℝ) ^ 2 + y ^ 2) = |y| := by
      rw [show (0 : ℝ) ^ 2 + y ^ 2 = y ^ 2 by ring, Real.sqrt_sq_eq_abs]
    rcases hy.lt_or_lt with hy1 | hy1
    · rw [if_neg (not_lt.mpr hy1.le), if_pos hy1, Real.sin_neg, Real.sin_pi_div_two, hsq,
        abs_of_neg hy1]
      field_simp
    · rw [if_pos hy1, Real.sin_pi_div_two, hsq, abs_of_pos hy1, div_self (ne_of_gt hy1)]
  · have hxne : x ≠ 0 := ne_of_lt hx
    rw [if_neg (by linarith), if_pos hx]
    by_cases hy : 0 ≤ y
    · rw [if_pos hy, Real.sin_add_pi, Real.sin_arctan, sqrt_aux x y hxne, abs_of_neg hx]
      field_simp
      ring
    · rw [if_neg hy, Real.sin_sub_pi, Real.sin_arctan, sqrt_aux x y hxne, abs_of_neg hx]
      field_simp
      ring

lemma go_branch_eq_specAngles (W : M4) (h : eps ≤ |W 0 2|) (m2 : ℝ)
    (hm : m2 = -1 ∨ m2 = 1) : go_branch W m2 = [specAngles W m2] := by
  have hdeg : ¬ eqR |W 0 2| 0 := by
    simp only [eqR, sub_zero, abs_abs]
    exact not_lt.mpr h
  simp only [go_branch, specAngles]
  rw [if_neg hdeg]
  set x := W 0 0 * m2 with hxdef
  set y := -(W 0 1) * m2 with hydef
  set a3 := atan2 y x with ha3
  set c3 := Real.cos a3 with hc3
  have heps1 : eps < 1 := by norm_num [eps]
  have hmm : m2 * m2 = 1 := by rcases hm with rfl | rfl <;> norm_num
  by_cases hc : eqR c3 0
  · rw [if_neg (not_not_intro hc)]
    by_cases hz : c3 = 0
    · rw [if_neg (not_not_intro hz)]
    · rw [if_pos hz]
      have habs : |c3| < eps := by
        have := hc
        simp only [eqR, sub_zero] at this
        exact this
      have hx0 : x ≠ 0 := by
        intro hx
        rcases eq_or_ne y 0 with hy | hy
        · have hone : c3 = 1 := by
            rw [hc3, ha3, hx, hy, atan2_zero_zero, Real.cos_zero]
          rw [hone] at habs
          norm_num [eps] at habs
        · rcases hy.lt_or_lt with hy1 | hy1
          · have : c3 = 0 := by
              rw [hc3, ha3, hx, atan2_neg_zero y hy1, Real.cos_neg, Real.cos_pi_div_two]
            exact hz this
          · have : c3 = 0 := by
              rw [hc3, ha3, hx, atan2_pos_zero y hy1, Real.cos_pi_div_two]
            exact hz this
      have hxy : ¬ (x = 0 ∧ y = 0) := fun hh => hx0 hh.1
      have hcval : c3 = x / Real.sqrt (x ^ 2 + y ^ 2) := by
        rw [hc3, ha3]
        exact cos_atan2 y x hxy
      have hsval : Real.sin a3 = y / Real.sqrt (x ^ 2 + y ^ 2) := by
        rw [ha3]
        exact sin_atan2 y x hxy
      have hs : 0 < Real.sqrt (x ^ 2 + y ^ 2) := Real.sqrt_pos.mpr (sum_sq_pos x y hxy)
      have hy0 : y ≠ 0 := by
        intro hy
        have hsin : Real.sin a3 = 0 := by
          rw [hsval, hy, zero_div]
        have hone : c3 ^ 2 = 1 := by
          have hpyth := Real.sin_sq_add_cos_sq a3
          rw [hsin] at hpyth
          rw [hc3]
          nlinarith [hpyth]
        have habs1 : |c3| = 1 := by
          nlinarith [abs_nonneg c3, sq_abs c3]
        rw [habs1] at habs
        norm_num [eps] at habs
      have harg : W 0 0 / c3 = W 0 1 / -(Real.sin a3) := by
        have hW00 : W 0 0 = x * m2 := by
          rw [hxdef, mul_assoc, hmm, mul_one]
        have hsq : m2 ^ 2 = 1 := by
          rw [sq]
          exact hmm
        have hW01 : W 0 1 = -y * m2 := by
          rw [hydef]
          ring_nf
          rw [hsq, mul_one]
        rw [hW00, hW01, hcval, hsval]
        field_simp
        ring
      rw [harg]
  · rw [if_pos hc]
    have hz : c3 ≠ 0 := by
      intro hzz
      apply hc
      simp only [eqR, hzz, sub_zero, abs_zero]
      norm_num [eps]
    rw [if_pos hz]

/-- C4: for every transform whose W[0,2] entry is at least eps in absolute
value, the decomposer evaluates both sign branches m2 = -1 and m2 = +1
(concatenated in that order), computes the angles by the stated atan2
formulas with the inner branch on cos a3, and prepends the translation to
each triple.  The code tests cos a3 against an eps tolerance while the claim
states the exact test cos a3 = 0, but the two branches produce equal poses on
the disagreement region, so the claim holds extensionally. -/
theorem decompose_matches_spec (W : M4) (h : eps ≤ |W 0 2|) :
    decompose_transformation W =
      [[W 0 3, W 1 3, W 2 3] ++ specAngles W (-1),
       [W 0 3, W 1 3, W 2 3] ++ specAngles W 1] := by
  unfold decompose_transformation
  rw [go_branch_eq_specAngles W h (-1) (Or.inl rfl),
    go_branch_eq_specAngles W h 1 (Or.inr rfl)]
  rfl

/-- C4 witness: a concrete transform with |W[0,2]| = 1 at which the theorem
applies. -/
theorem decompose_matches_spec_witness :
    eps ≤ |(!![0,0,1,0; 0,-1,0,0; 1,0,0,0; 0,0,0,1] : M4) 0 2| ∧
    decompose_transformation (!![0,0,1,0; 0,-1,0,0; 1,0,0,0; 0,0,0,1] : M4) =
      [[(!![0,0,1,0; 0,-1,0,0; 1,0,0,0; 0,0,0,1] : M4) 0 3,
        (!![0,0,1,0; 0,-1,0,0; 1,0,0,0; 0,0,0,1] : M4) 1 3,
        (!![0,0,1,0; 0,-1,0,0; 1,0,0,0; 0,0,0,1] : M4) 2 3] ++
          specAngles (!![0,0,1,0; 0,-1,0,0; 1,0,0,0; 0,0,0,1] : M4) (-1),
       [(!![0,0,1,0; 0,-1,0,0; 1,0,0,0; 0,0,0,1] : M4) 0 3,
        (!![0,0,1,0; 0,-1,0,0; 1,0,0,0; 0,0,0,1] : M4) 1 3,
        (!![0,0,1,0; 0,-1,0,0; 1,0,0,0; 0,0,0,1] : M4) 2 3] ++
          specAngles (!![0,0,1,0; 0,-1,0,0; 1,0,0,0; 0,0,0,1] : M4) 1] := by
  have hcond : eps ≤ |(!![0,0,1,0; 0,-1,0,0; 1,0,0,0; 0,0,0,1] : M4) 0 2| := by
    norm_num [eps]
  exact ⟨hcond, decompose_matches_spec _ hcond⟩

lemma dh4_pi_half : dh 4 (Real.pi / 2) = !![1,0,0,0; 0,0,1,0; 0,-1,0,0; 0,0,0,1] := by
  show rotZ (Real.pi / 2 - Real.pi / 2) * transZ 0 * transX 0 * rotX (-(Real.pi / 2)) = _
  rw [sub_self]
  ext i j
  fin_cases i <;> fin_cases j <;>
    norm_num [rotZ, rotX, transZ, transX, Matrix.mul_apply, Fin.sum_univ_four,
      Real.cos_pi_div_two, Real.sin_pi_div_two, Real.cos_neg, Real.sin_neg,
      Matrix.vecHead, Matrix.vecTail]

lemma chain5_deg :
    (!![1,0,0,2; 0,0,1,0; 0,-1,0,2; 0,0,0,1] : M4) * !![1,0,0,0; 0,0,1,0; 0,-1,0,0; 0,0,0,1] =
      !![1,0,0,2; 0,-1,0,0; 0,0,-1,2; 0,0,0,1] := by
  ext i j
  fin_cases i <;> fin_cases j <;>
    norm_num [Matrix.mul_apply, Fin.sum_univ_four, Matrix.vecHead, Matrix.vecTail]

lemma chain6_deg :
    (!![1,0,0,2; 0,-1,0,0; 0,0,-1,2; 0,0,0,1] : M4) * !![1,0,0,0; 0,1,0,0; 0,0,1,2; 0,0,0,1] =
      !![1,0,0,2; 0,-1,0,0; 0,0,-1,0; 0,0,0,1] := by
  ext i j
  fin_cases i <;> fin_cases j <;>
    norm_num [Matrix.mul_apply, Fin.sum_univ_four, Matrix.vecHead, Matrix.vecTail]

lemma fk_deg :
    get_fk_solution_full ![0, 0, 0, 0, Real.pi / 2, 0] =
      [!![1,0,0,0; 0,0,-1,0; 0,1,0,1; 0,0,0,1],
       !![1,0,0,1; 0,0,-1,0; 0,1,0,1; 0,0,0,1],
       !![1,0,0,2; 0,1,0,0; 0,0,1,1; 0,0,0,1],
       !![1,0,0,2; 0,0,1,0; 0,-1,0,2; 0,0,0,1],
       !![1,0,0,2; 0,-1,0,0; 0,0,-1,2; 0,0,0,1],
       !![1,0,0,2; 0,-1,0,0; 0,0,-1,0; 0,0,0,1]] := by
  rw [fk_full_explicit]
  show [dh 0 0, dh 0 0 * dh 1 0, dh 0 0 * dh 1 0 * dh 2 0,
    dh 0 0 * dh 1 0 * dh 2 0 * dh 3 0,
    dh 0 0 * dh 1 0 * dh 2 0 * dh 3 0 * dh 4 (Real.pi / 2),
    dh 0 0 * dh 1 0 * dh 2 0 * dh 3 0 * dh 4 (Real.pi / 2) * dh 5 0] = _
  rw [dh0_zero, dh1_zero, dh2_zero, dh3_zero, dh4_pi_half, dh5_zero,
    chain2_zero, chain3_zero, chain4_zero, chain5_deg, chain6_deg]

lemma ee_deg :
    get_fk_solution_ee ![0, 0, 0, 0, Real.pi / 2, 0] =
      !![1,0,0,2; 0,-1,0,0; 0,0,-1,0; 0,0,0,1] := by
  rw [get_fk_solution_ee, fk_deg]
  rfl

lemma decompose_P6deg :
    decompose_transformation (!![1,0,0,2; 0,-1,0,0; 0,0,-1,0; 0,0,0,1] : M4) =
      [[2, 0, 0], [2, 0, 0]] := by
  have hlt : |(!![1,0,0,2; 0,-1,0,0; 0,0,-1,0; 0,0,0,1] : M4) 0 2| < eps := by
    have h02 : (!![1,0,0,2; 0,-1,0,0; 0,0,-1,0; 0,0,0,1] : M4) 0 2 = 0 := by simp
    rw [h02]
    norm_num [eps]
  norm_num [decompose_transformation, go_branch, hlt, eps, Matrix.vecHead, Matrix.vecTail]

/-- C1 witness: at the all-zero configuration the decomposition is
non-degenerate (its first candidate is a full 6-element pose) and the vector
field returns J times Delta. -/
theorem vectorField_formula_witness :
    (List.replicate 6 (0 : ℝ)).length = 6 ∧
    ((decompose_transformation (get_fk_solution_ee input_initial)).getD 0 []).length = 6 ∧
    state_space (List.replicate 6 (0 : ℝ)) input_initial 0 = some (fun i => ∑ j : Fin 6,
      jacobian (get_fk_solution_full input_initial) i j *
        (((List.replicate 6 (0 : ℝ)).getD (j : ℕ) 0 -
            ((decompose_transformation (get_fk_solution_ee input_initial)).getD 0 []).getD
              (j : ℕ) 0) * k)) := by
  have h1 : (List.replicate 6 (0 : ℝ)).length = 6 := by simp
  have h2 : ((decompose_transformation (get_fk_solution_ee input_initial)).getD 0 []).length
      = 6 := by
    rw [ee_zero, decompose_P6]
    rfl
  exact ⟨h1, h2, (vectorField_formula.2 (List.replicate 6 0) input_initial 0 0).2 h1 h2⟩

/-- C1 counterexample: at q = (0,0,0,0,pi/2,0) the end-effector frame is
degenerate for the decomposer, the first candidate is the 3-element
translation, and the vector field hits the broadcast-error path instead of
returning J times Delta. -/
theorem vectorField_cex :
    state_space (List.replicate 6 (0 : ℝ)) ![0, 0, 0, 0, Real.pi / 2, 0] 0 = none ∧
    ¬ ∃ f : Fin 6 → ℝ,
      state_space (List.replicate 6 (0 : ℝ)) ![0, 0, 0, 0, Real.pi / 2, 0] 0 = some f := by
  have hxi : (decompose_transformation
      ((get_fk_solution_full ![0, 0, 0, 0, Real.pi / 2, 0]).getLastD 0)).getD 0 [] =
      [2, 0, 0] := by
    have he : (get_fk_solution_full ![0, 0, 0, 0, Real.pi / 2, 0]).getLastD 0 =
        !![1,0,0,2; 0,-1,0,0; 0,0,-1,0; 0,0,0,1] := ee_deg
    rw [he, decompose_P6deg]
    rfl
  have hnone : state_space (List.replicate 6 (0 : ℝ)) ![0, 0, 0, 0, Real.pi / 2, 0] 0
      = none := by
    simp only [state_space]
    rw [hxi]
    rw [if_neg (by simp)]
  refine ⟨hnone, ?_⟩
  rw [hnone]
  simp

lemma fk_ee_valid (qs : Fin 6 → ℝ) : isValidHT (get_fk_solution_ee qs) := by
  rw [get_fk_solution_ee, fk_full_explicit]
  show isValidHT
    (dh 0 (qs 0) * dh 1 (qs 1) * dh 2 (qs 2) * dh 3 (qs 3) * dh 4 (qs 4) * dh 5 (qs 5))
  exact valid_mul (valid_mul (valid_mul (valid_mul (valid_mul (dh_valid 0 (qs 0))
    (dh_valid 1 (qs 1))) (dh_valid 2 (qs 2))) (dh_valid 3 (qs 3))) (dh_valid 4 (qs 4)))
    (dh_valid 5 (qs 5))

lemma recompose_entries (u v w : ℝ) :
    recompose u v w =
      !![Real.cos v * Real.cos w, -(Real.cos v * Real.sin w), Real.sin v;
         Real.cos u * Real.sin w + Real.sin u * Real.sin v * Real.cos w,
         Real.cos u * Real.cos w - Real.sin u * Real.sin v * Real.sin w,
         -(Real.sin u * Real.cos v);
         Real.sin u * Real.sin w - Real.cos u * Real.sin v * Real.cos w,
         Real.sin u * Real.cos w + Real.cos u * Real.sin v * Real.sin w,
         Real.cos u * Real.cos v] := by
  ext i j
  fin_cases i <;> fin_cases j <;>
    simp [recompose, rot3x, rot3y, rot3z, Matrix.mul_apply, Fin.sum_univ_three,
      Matrix.vecHead, Matrix.vecTail] <;> ring

lemma spec_rebuild (W : M4)
    (ho : (rotBlock W)ᵀ * rotBlock W = 1) (hdet : (rotBlock W).det = 1)
    (hgim : ¬(W 0 0 = 0 ∧ W 0 1 = 0)) :
    recompose ((specAngles W (-1)).getD 0 0) ((specAngles W (-1)).getD 1 0)
      ((specAngles W (-1)).getD 2 0) = rotBlock W := by
  have hWW : rotBlock W * (rotBlock W)ᵀ = 1 := Matrix.mul_eq_one_comm.mp ho
  have hrow0 : W 0 0 ^ 2 + W 0 1 ^ 2 + W 0 2 ^ 2 = 1 := by
    have h := congrFun (congrFun hWW 0) 0
    simp [Matrix.mul_apply, Fin.sum_univ_three, Matrix.transpose_apply, Matrix.one_apply,
      rotBlock, toF4_zero, toF4_one, toF4_two] at h
    linear_combination h
  have hrow01 : W 0 0 * W 1 0 + W 0 1 * W 1 1 + W 0 2 * W 1 2 = 0 := by
    have h := congrFun (congrFun hWW 0) 1
    simp [Matrix.mul_apply, Fin.sum_univ_three, Matrix.transpose_apply, Matrix.one_apply,
      rotBlock, toF4_zero, toF4_one, toF4_two] at h
    linear_combination h
  have hrow02 : W 0 0 * W 2 0 + W 0 1 * W 2 1 + W 0 2 * W 2 2 = 0 := by
    have h := congrFun (congrFun hWW 0) 2
    simp [Matrix.mul_apply, Fin.sum_univ_three, Matrix.transpose_apply, Matrix.one_apply,
      rotBlock, toF4_zero, toF4_one, toF4_two] at h
    linear_combination h
  have hcol2 : W 0 2 ^ 2 + W 1 2 ^ 2 + W 2 2 ^ 2 = 1 := by
    have h := congrFun (congrFun ho 2) 2
    simp [Matrix.mul_apply, Fin.sum_univ_three, Matrix.transpose_apply, Matrix.one_apply,
      rotBlock, toF4_zero, toF4_one, toF4_two] at h
    linear_combination h
  have hone : rotBlock W * (rotBlock W).adjugate = 1 := by
    rw [Matrix.mul_adjugate, hdet, one_smul]
  have hadj : (rotBlock W).adjugate = (rotBlock W)ᵀ := by
    calc (rotBlock W).adjugate = 1 * (rotBlock W).adjugate := (Matrix.one_mul _).symm
      _ = ((rotBlock W)ᵀ * rotBlock W) * (rotBlock W).adjugate := by rw [ho]
      _ = (rotBlock W)ᵀ * (rotBlock W * (rotBlock W).adjugate) := by rw [Matrix.mul_assoc]
      _ = (rotBlock W)ᵀ * 1 := by rw [hone]
      _ = (rotBlock W)ᵀ := Matrix.mul_one _
  have hadj22 : W 2 2 = W 0 0 * W 1 1 - W 0 1 * W 1 0 := by
    have h := congrFun (congrFun hadj 2) 2
    rw [Matrix.adjugate_fin_three] at h
    simp [Matrix.transpose_apply, rotBlock, toF4_zero, toF4_one, toF4_two,
      Matrix.vecHead, Matrix.vecTail] at h
    linear_combination -h
  have hadj12 : W 1 2 = W 0 1 * W 2 0 - W 0 0 * W 2 1 := by
    have h := congrFun (congrFun hadj 2) 1
    rw [Matrix.adjugate_fin_three] at h
    simp [Matrix.transpose_apply, rotBlock, toF4_zero, toF4_one, toF4_two,
      Matrix.vecHead, Matrix.vecTail] at h
    linear_combination -h
  have hsum : (0 : ℝ) < W 0 0 ^ 2 + W 0 1 ^ 2 := sum_sq_pos _ _ hgim
  have hhpos : 0 < Real.sqrt (W 0 0 ^ 2 + W 0 1 ^ 2) := Real.sqrt_pos.mpr hsum
  have hhne : Real.sqrt (W 0 0 ^ 2 + W 0 1 ^ 2) ≠ 0 := ne_of_gt hhpos
  have hh2 : Real.sqrt (W 0 0 ^ 2 + W 0 1 ^ 2) ^ 2 = W 0 0 ^ 2 + W 0 1 ^ 2 :=
    Real.sq_sqrt (le_of_lt hsum)
  simp only [specAngles, List.getD_cons_zero, List.getD_cons_succ]
  rw [show -(W 0 1) * (-1 : ℝ) = W 0 1 by ring, show W 0 0 * (-1 : ℝ) = -(W 0 0) by ring]
  have hxy3 : ¬((-(W 0 0)) = 0 ∧ W 0 1 = 0) := by
    rintro ⟨h1, h2⟩
    exact hgim ⟨neg_eq_zero.mp h1, h2⟩
  have hsq3 : (-(W 0 0)) ^ 2 + W 0 1 ^ 2 = W 0 0 ^ 2 + W 0 1 ^ 2 := by ring
  have hc3 : Real.cos (atan2 (W 0 1) (-(W 0 0))) =
      -(W 0 0) / Real.sqrt (W 0 0 ^ 2 + W 0 1 ^ 2) := by
    rw [cos_atan2 _ _ hxy3, hsq3]
  have hs3 : Real.sin (atan2 (W 0 1) (-(W 0 0))) =
      W 0 1 / Real.sqrt (W 0 0 ^ 2 + W 0 1 ^ 2) := by
    rw [sin_atan2 _ _ hxy3, hsq3]
  have ha2 : (if Real.cos (atan2 (W 0 1) (-(W 0 0))) ≠ 0 then
        atan2 (W 0 2) (W 0 0 / Real.cos (atan2 (W 0 1) (-(W 0 0))))
      else atan2 (W 0 2) (W 0 1 / -(Real.sin (atan2 (W 0 1) (-(W 0 0)))))) =
      atan2 (W 0 2) (-(Real.sqrt (W 0 0 ^ 2 + W 0 1 ^ 2))) := by
    by_cases hz : Real.cos (atan2 (W 0 1) (-(W 0 0))) = 0
    · rw [if_neg (not_not_intro hz)]
      rw [hc3] at hz
      have hW00 : W 0 0 = 0 := by
        rcases div_eq_zero_iff.mp hz with h1 | h1
        · exact neg_eq_zero.mp h1
        · exact absurd h1 hhne
      have hW01 : W 0 1 ≠ 0 := fun hc => hgim ⟨hW00, hc⟩
      rw [hs3]
      congr 1
      rw [div_neg, div_div_eq_mul_div, mul_comm, mul_div_assoc, div_self hW01, mul_one]
    · rw [if_pos hz]
      have hW00 : W 0 0 ≠ 0 := by
        intro hc
        apply hz
        rw [hc3, hc]
        simp
      rw [hc3]
      congr 1
      rw [div_div_eq_mul_div, div_neg, neg_inj, mul_comm, mul_div_assoc, div_self hW00,
        mul_one]
  rw [ha2]
  have hxy2 : ¬(-(Real.sqrt (W 0 0 ^ 2 + W 0 1 ^ 2)) = 0 ∧ W 0 2 = 0) := by
    rintro ⟨h1, _⟩
    exact hhne (neg_eq_zero.mp h1)
  have hsq2 : (-(Real.sqrt (W 0 0 ^ 2 + W 0 1 ^ 2))) ^ 2 + W 0 2 ^ 2 = 1 := by
    rw [neg_sq, hh2]
    linear_combination hrow0
  have hc2 : Real.cos (atan2 (W 0 2) (-(Real.sqrt (W 0 0 ^ 2 + W 0 1 ^ 2)))) =
      -(Real.sqrt (W 0 0 ^ 2 + W 0 1 ^ 2)) := by
    rw [cos_atan2 _ _ hxy2, hsq2, Real.sqrt_one, div_one]
  have hs2 : Real.sin (atan2 (W 0 2) (-(Real.sqrt (W 0 0 ^ 2 + W 0 1 ^ 2)))) = W 0 2 := by
    rw [sin_atan2 _ _ hxy2, hsq2, Real.sqrt_one, div_one]
  rw [hc2]
  have h1222 : (W 2 2 / -(Real.sqrt (W 0 0 ^ 2 + W 0 1 ^ 2))) ^ 2 +
      (-(W 1 2) / -(Real.sqrt (W 0 0 ^ 2 + W 0 1 ^ 2))) ^ 2 = 1 := by
    rw [div_pow, div_pow, neg_sq, neg_sq, hh2, div_add_div_same, div_eq_one_iff_eq
      (by positivity)]
    linear_combination hcol2 - hrow0
  have hxy1 : ¬(W 2 2 / -(Real.sqrt (W 0 0 ^ 2 + W 0 1 ^ 2)) = 0 ∧
      -(W 1 2) / -(Real.sqrt (W 0 0 ^ 2 + W 0 1 ^ 2)) = 0) := by
    rintro ⟨h1, h2⟩
    rw [h1, h2] at h1222
    norm_num at h1222
  have hc1 : Real.cos (atan2 (-(W 1 2) / -(Real.sqrt (W 0 0 ^ 2 + W 0 1 ^ 2)))
      (W 2 2 / -(Real.sqrt (W 0 0 ^ 2 + W 0 1 ^ 2)))) =
      W 2 2 / -(Real.sqrt (W 0 0 ^ 2 + W 0 1 ^ 2)) := by
    rw [cos_atan2 _ _ hxy1, h1222, Real.sqrt_one, div_one]
  have hs1 : Real.sin (atan2 (-(W 1 2) / -(Real.sqrt (W 0 0 ^ 2 + W 0 1 ^ 2)))
      (W 2 2 / -(Real.sqrt (W 0 0 ^ 2 + W 0 1 ^ 2)))) =
      -(W 1 2) / -(Real.sqrt (W 0 0 ^ 2 + W 0 1 ^ 2)) := by
    rw [sin_atan2 _ _ hxy1, h1222, Real.sqrt_one, div_one]
  have hRB : rotBlock W =
      !![W 0 0, W 0 1, W 0 2; W 1 0, W 1 1, W 1 2; W 2 0, W 2 1, W 2 2] := by
    ext i j
    fin_cases i <;> fin_cases j <;> rfl
  rw [recompose_entries, hc1, hs1, hc2, hs2, hc3, hs3, hRB]
  ext i j
  fin_cases i <;> fin_cases j <;>
    simp only [Fin.zero_eta, Fin.mk_one, show ((⟨2, by omega⟩ : Fin 3) = 2) from rfl,
      Matrix.cons_val', Matrix.cons_val_zero, Matrix.cons_val_one, Matrix.head_cons,
      Matrix.head_fin_const, Matrix.empty_val', Matrix.cons_val_fin_one,
      Matrix.cons_val_two, Matrix.tail_cons, Matrix.of_apply, Matrix.vecHead,
      Matrix.vecTail, Matrix.cons_val_succ, Function.comp_apply]
  all_goals (clear ho hdet hWW hone hadj hRB hxy3 hxy2 hxy1 hc3 hs3 ha2 hc2 hs2 hc1 hs1 hgim hsq3 hsq2 h1222)
  all_goals field_simp
  · rw [show (-W 0 1 ^ 2 + -W 0 0 ^ 2 : ℝ) = -(W 0 0 ^ 2 + W 0 1 ^ 2) from by ring, div_neg,
      mul_div_assoc, div_self (ne_of_gt hsum), mul_one]
    linear_combination (-(W 0 1)) * hadj22 - W 0 0 * hrow01
  · linear_combination W 0 0 * hadj22 - W 0 1 * hrow01
  · linear_combination W 0 1 * hadj12 - W 0 0 * hrow02
  · rw [show (-W 0 1 ^ 2 + -W 0 0 ^ 2 : ℝ) = -(W 0 0 ^ 2 + W 0 1 ^ 2) from by ring, div_neg,
      mul_div_assoc, div_self (ne_of_gt hsum), mul_one]
    linear_combination (-(W 0 0)) * hadj12 - W 0 1 * hrow02

/-- C6 counterexample: at q = (0,0,0,0,pi/2,0) the end-effector frame has
W[0,2] = 0, the decomposer takes its degenerate branch (robustly: the branch
test compares against 1e-9, far above floating rounding noise), and both
candidates are the bare 3-element translation with no angle triple, so no
candidate can rebuild the rotation block; reading the absent angles as the
list defaults (0,0,0) rebuilds the identity, off by 2 in entry (1,1). -/
theorem roundtrip_cex :
    decompose_transformation (get_fk_solution_ee ![0, 0, 0, 0, Real.pi / 2, 0]) =
      [[2, 0, 0], [2, 0, 0]] ∧
    (decompose_transformation (get_fk_solution_ee ![0, 0, 0, 0, Real.pi / 2, 0])).map
      List.length = [3, 3] ∧
    1 / 1000000 <
      |recompose
          (((decompose_transformation
            (get_fk_solution_ee ![0, 0, 0, 0, Real.pi / 2, 0])).getD 0 []).getD 3 0)
          (((decompose_transformation
            (get_fk_solution_ee ![0, 0, 0, 0, Real.pi / 2, 0])).getD 0 []).getD 4 0)
          (((decompose_transformation
            (get_fk_solution_ee ![0, 0, 0, 0, Real.pi / 2, 0])).getD 0 []).getD 5 0) 1 1 -
        rotBlock (get_fk_solution_ee ![0, 0, 0, 0, Real.pi / 2, 0]) 1 1| := by
  have hd : decompose_transformation (get_fk_solution_ee ![0, 0, 0, 0, Real.pi / 2, 0]) =
      [[2, 0, 0], [2, 0, 0]] := by
    rw [ee_deg, decompose_P6deg]
  refine ⟨hd, by rw [hd]; rfl, ?_⟩
  rw [hd]
  show 1 / 1000000 <
    |recompose 0 0 0 1 1 - rotBlock (get_fk_solution_ee ![0, 0, 0, 0, Real.pi / 2, 0]) 1 1|
  have hre : recompose 0 0 0 1 1 = 1 := by
    rw [recompose_entries]
    norm_num [Matrix.vecHead, Matrix.vecTail]
  have hrb : rotBlock (get_fk_solution_ee ![0, 0, 0, 0, Real.pi / 2, 0]) 1 1 = -1 := by
    rw [ee_deg]
    show (!![1,0,0,2; 0,-1,0,0; 0,0,-1,0; 0,0,0,1] : M4) (toF4 1) (toF4 1) = -1
    rw [toF4_one]
    simp [Matrix.vecHead, Matrix.vecTail]
  rw [hre, hrb]
  norm_num

/-- C6 amended: for every joint vector whose end-effector frame is
non-degenerate for the decomposer (eps <= |W[0,2]|) and away from the true
gimbal-lock set ((W[0,0], W[0,1]) differs from (0,0), i.e. cos of the middle
angle is nonzero), the first candidate returned by decompose carries an angle
triple whose rebuild under the convention Rx * Ry * Rz equals the rotation
block exactly, in particular within the 1e-6 tolerance.  At degenerate
configurations the candidates carry no angle triple and the round trip
fails; on the remaining gimbal-lock set the outcome of the floating-point
program is decided by IEEE signed-zero behaviour that a real-number model
cannot reproduce, so it is excluded here. -/
theorem roundtrip_off_gimbal (qs : Fin 6 → ℝ)
    (hdeg : eps ≤ |get_fk_solution_ee qs 0 2|)
    (hgim : ¬(get_fk_solution_ee qs 0 0 = 0 ∧ get_fk_solution_ee qs 0 1 = 0)) :
    recompose (((decompose_transformation (get_fk_solution_ee qs)).getD 0 []).getD 3 0)
        (((decompose_transformation (get_fk_solution_ee qs)).getD 0 []).getD 4 0)
        (((decompose_transformation (get_fk_solution_ee qs)).getD 0 []).getD 5 0) =
      rotBlock (get_fk_solution_ee qs) ∧
    ∀ i j : Fin 3,
      |recompose (((decompose_transformation (get_fk_solution_ee qs)).getD 0 []).getD 3 0)
          (((decompose_transformation (get_fk_solution_ee qs)).getD 0 []).getD 4 0)
          (((decompose_transformation (get_fk_solution_ee qs)).getD 0 []).getD 5 0) i j -
        rotBlock (get_fk_solution_ee qs) i j| ≤ 1 / 1000000 := by
  obtain ⟨ho, hdet, hbot⟩ := fk_ee_valid qs
  have hfc : (decompose_transformation (get_fk_solution_ee qs)).getD 0 [] =
      [get_fk_solution_ee qs 0 3, get_fk_solution_ee qs 1 3, get_fk_solution_ee qs 2 3] ++
        specAngles (get_fk_solution_ee qs) (-1) := by
    unfold decompose_transformation
    rw [go_branch_eq_specAngles _ hdeg (-1) (Or.inl rfl),
      go_branch_eq_specAngles _ hdeg 1 (Or.inr rfl)]
    rfl
  have hmain : recompose
      (((decompose_transformation (get_fk_solution_ee qs)).getD 0 []).getD 3 0)
      (((decompose_transformation (get_fk_solution_ee qs)).getD 0 []).getD 4 0)
      (((decompose_transformation (get_fk_solution_ee qs)).getD 0 []).getD 5 0) =
      rotBlock (get_fk_solution_ee qs) := by
    rw [hfc]
    exact spec_rebuild (get_fk_solution_ee qs) ho hdet hgim
  refine ⟨hmain, ?_⟩
  intro i j
  rw [hmain, sub_self, abs_zero]
  norm_num

set_option maxHeartbeats 1000000 in
lemma dh4_3pi4 : dh 4 (3 * Real.pi / 4) =
    !![Real.sqrt 2 / 2, 0, -(Real.sqrt 2 / 2), 0;
       Real.sqrt 2 / 2, 0, Real.sqrt 2 / 2, 0;
       0, -1, 0, 0; 0, 0, 0, 1] := by
  show rotZ (3 * Real.pi / 4 - Real.pi / 2) * transZ 0 * transX 0 * rotX (-(Real.pi / 2)) = _
  rw [show 3 * Real.pi / 4 - Real.pi / 2 = Real.pi / 4 from by ring]
  ext i j
  fin_cases i <;> fin_cases j <;>
    norm_num [rotZ, rotX, transZ, transX, Matrix.mul_apply, Fin.sum_univ_four,
      Real.cos_pi_div_four, Real.sin_pi_div_four, Real.cos_pi_div_two, Real.sin_pi_div_two,
      Real.cos_neg, Real.sin_neg, Matrix.vecHead, Matrix.vecTail]

lemma chain5_w :
    (!![1,0,0,2; 0,0,1,0; 0,-1,0,2; 0,0,0,1] : M4) *
      !![Real.sqrt 2 / 2, 0, -(Real.sqrt 2 / 2), 0;
         Real.sqrt 2 / 2, 0, Real.sqrt 2 / 2, 0;
         0, -1, 0, 0; 0, 0, 0, 1] =
      !![Real.sqrt 2 / 2, 0, -(Real.sqrt 2 / 2), 2;
         0, -1, 0, 0;
         -(Real.sqrt 2 / 2), 0, -(Real.sqrt 2 / 2), 2;
         0, 0, 0, 1] := by
  ext i j
  fin_cases i <;> fin_cases j <;>
    norm_num [Matrix.mul_apply, Fin.sum_univ_four, Matrix.vecHead, Matrix.vecTail]

lemma chain6_w :
    (!![Real.sqrt 2 / 2, 0, -(Real.sqrt 2 / 2), 2;
        0, -1, 0, 0;
        -(Real.sqrt 2 / 2), 0, -(Real.sqrt 2 / 2), 2;
        0, 0, 0, 1] : M4) * !![1,0,0,0; 0,1,0,0; 0,0,1,2; 0,0,0,1] =
      !![Real.sqrt 2 / 2, 0, -(Real.sqrt 2 / 2), 2 - Real.sqrt 2;
         0, -1, 0, 0;
         -(Real.sqrt 2 / 2), 0, -(Real.sqrt 2 / 2), 2 - Real.sqrt 2;
         0, 0, 0, 1] := by
  ext i j
  fin_cases i <;> fin_cases j <;>
    norm_num [Matrix.mul_apply, Fin.sum_univ_four, Matrix.vecHead, Matrix.vecTail] <;>
    ring

lemma ee_w :
    get_fk_solution_ee ![0, 0, 0, 0, 3 * Real.pi / 4, 0] =
      !![Real.sqrt 2 / 2, 0, -(Real.sqrt 2 / 2), 2 - Real.sqrt 2;
         0, -1, 0, 0;
         -(Real.sqrt 2 / 2), 0, -(Real.sqrt 2 / 2), 2 - Real.sqrt 2;
         0, 0, 0, 1] := by
  rw [get_fk_solution_ee, fk_full_explicit]
  show dh 0 0 * dh 1 0 * dh 2 0 * dh 3 0 * dh 4 (3 * Real.pi / 4) * dh 5 0 = _
  rw [dh0_zero, dh1_zero, dh2_zero, dh3_zero, dh4_3pi4, dh5_zero,
    chain2_zero, chain3_zero, chain4_zero, chain5_w, chain6_w]

/-- C6 witness: at q = (0,0,0,0,3pi/4,0) the end-effector frame is
non-degenerate and off gimbal lock, and the first candidate's angle triple
rebuilds the rotation block exactly. -/
theorem roundtrip_off_gimbal_witness :
    eps ≤ |get_fk_solution_ee ![0, 0, 0, 0, 3 * Real.pi / 4, 0] 0 2| ∧
    ¬(get_fk_solution_ee ![0, 0, 0, 0, 3 * Real.pi / 4, 0] 0 0 = 0 ∧
        get_fk_solution_ee ![0, 0, 0, 0, 3 * Real.pi / 4, 0] 0 1 = 0) ∧
    recompose
        (((decompose_transformation
          (get_fk_solution_ee ![0, 0, 0, 0, 3 * Real.pi / 4, 0])).getD 0 []).getD 3 0)
        (((decompose_transformation
          (get_fk_solution_ee ![0, 0, 0, 0, 3 * Real.pi / 4, 0])).getD 0 []).getD 4 0)
        (((decompose_transformation
          (get_fk_solution_ee ![0, 0, 0, 0, 3 * Real.pi / 4, 0])).getD 0 []).getD 5 0) =
      rotBlock (get_fk_solution_ee ![0, 0, 0, 0, 3 * Real.pi / 4, 0]) := by
  have hsqrt : (1 : ℝ) ≤ Real.sqrt 2 := by
    nlinarith [Real.sq_sqrt (show (0:ℝ) ≤ 2 by norm_num), Real.sqrt_nonneg 2]
  have h02 : get_fk_solution_ee ![0, 0, 0, 0, 3 * Real.pi / 4, 0] 0 2 =
      -(Real.sqrt 2 / 2) := by
    rw [ee_w]
    simp
  have h00 : get_fk_solution_ee ![0, 0, 0, 0, 3 * Real.pi / 4, 0] 0 0 =
      Real.sqrt 2 / 2 := by
    rw [ee_w]
    simp
  have h1 : eps ≤ |get_fk_solution_ee ![0, 0, 0, 0, 3 * Real.pi / 4, 0] 0 2| := by
    rw [h02, abs_neg, abs_of_nonneg (by positivity), eps]
    linarith
  have h2 : ¬(get_fk_solution_ee ![0, 0, 0, 0, 3 * Real.pi / 4, 0] 0 0 = 0 ∧
      get_fk_solution_ee ![0, 0, 0, 0, 3 * Real.pi / 4, 0] 0 1 = 0) := by
    rintro ⟨hc, _⟩
    rw [h00] at hc
    have hpos : (0 : ℝ) < Real.sqrt 2 / 2 := by linarith
    exact absurd hc (ne_of_gt hpos)
  exact ⟨h1, h2, (roundtrip_off_gimbal ![0, 0, 0, 0, 3 * Real.pi / 4, 0] h1 h2).1⟩

end
